import Mathlib

/-!
Verification of the router geolocation pipeline (`geolocate_routers.py`).

The Python source is shallowly embedded:
* the per-IP result dictionary becomes the structure `Geo.LookupResult`
  (every key of the dictionary is a field; optional values become `Option`);
* Python truthiness tests on optional values become the `truthy*` helpers
  (`None`, `""`, `0` and `0.0` are falsy);
* the two external collaborators (MaxMind database reader, reverse DNS)
  become function parameters producing a `DbOutcome` / `Option String`;
* the regular expressions are embedded by their search semantics on the
  concrete patterns used by the source (see `boundedMatch` and
  `parse_line`), with character classes restricted to ASCII as they are
  exercised by hostnames and router-list files.

Latitude and longitude are modelled with `Rat`: the scoring logic only
inspects them through Python truthiness (zero versus non-zero), which `Rat`
represents exactly.
-/

namespace Geo

/-- Python truthiness of an optional string: `None` and `""` are falsy. -/
def truthyStr : Option String → Bool
  | none => false
  | some s => !(s = "")

/-- Python truthiness of an optional rational: `None` and `0.0` are falsy. -/
def truthyRat : Option Rat → Bool
  | none => false
  | some q => !(q = 0)

/-- Python truthiness of an optional natural: `None` and `0` are falsy. -/
def truthyNat : Option Nat → Bool
  | none => false
  | some n => !(n = 0)

/-- The per-IP result dictionary built by `lookup_ip` (source lines 67–80):
one field per key, `none` for Python `None`.  `error` is only ever set by
the database-lookup failure branches. -/
structure LookupResult where
  ip : String
  country : Option String := none
  city : Option String := none
  latitude : Option Rat := none
  longitude : Option Rat := none
  accuracy_radius : Option Nat := none
  postal_code : Option String := none
  subdivision : Option String := none
  isp : Option String := none
  hostname : Option String := none
  dns_hints : Option String := none
  confidence : Option String := none
  error : Option String := none
  deriving Repr, DecidableEq

/-- Points for coordinates (source: `if result['latitude'] and
result['longitude']: score += 2`); Python truthiness makes an exact-zero
coordinate count as absent. -/
def coordTerm (r : LookupResult) : Nat :=
  if truthyRat r.latitude && truthyRat r.longitude then 2 else 0

/-- Points for a city name (`if result['city']: score += 2`). -/
def cityTerm (r : LookupResult) : Nat :=
  if truthyStr r.city then 2 else 0

/-- Points for a resolved hostname (`if result['hostname']: score += 1`). -/
def hostTerm (r : LookupResult) : Nat :=
  if truthyStr r.hostname then 1 else 0

/-- Points for a DNS location hint (`if result['dns_hints']: score += 2`). -/
def hintTerm (r : LookupResult) : Nat :=
  if truthyStr r.dns_hints then 2 else 0

/-- Points for a small accuracy radius (`if result['accuracy_radius'] and
result['accuracy_radius'] < 50: score += 1`); the truthiness test means a
radius of exactly `0` earns no point. -/
def accTerm (r : LookupResult) : Nat :=
  if truthyNat r.accuracy_radius && decide (r.accuracy_radius.getD 0 < 50)
  then 1 else 0

/-- The total score accumulated by `calculate_confidence` (source lines
142–162): the sequential `score += w` statements sum the five terms. -/
def score (r : LookupResult) : Nat :=
  coordTerm r + cityTerm r + hostTerm r + hintTerm r + accTerm r

/-- The threshold chain at the end of `calculate_confidence` (source lines
164–171). -/
def levelOf (s : Nat) : String :=
  if s ≥ 6 then "high"
  else if s ≥ 4 then "medium"
  else if s ≥ 2 then "low"
  else "none"

/-- Embedding of `calculate_confidence` (source lines 135–171). -/
def calculate_confidence (r : LookupResult) : String :=
  levelOf (score r)

/-- Rank of a confidence level, for comparing levels; the order is
none < low < medium < high. -/
def confRank : String → Nat
  | "low" => 1
  | "medium" => 2
  | "high" => 3
  | _ => 0

/-- Modelled from the spec claim's words for the accuracy point: "+1 if
accuracy radius is present and < 50", reading "present" as having a value.
This differs from the source (`accTerm`) only at `accuracy_radius = some 0`.
Kept for the refinement comparison with `score`. -/
def claimAccTerm (r : LookupResult) : Nat :=
  match r.accuracy_radius with
  | some a => if a < 50 then 1 else 0
  | none => 0

/-- Modelled from the spec claim's words: the sum of fixed weights with the
accuracy clause read as "present and < 50". -/
def claimScore (r : LookupResult) : Nat :=
  coordTerm r + cityTerm r + hostTerm r + hintTerm r + claimAccTerm r

/-- Characterization of the threshold chain. -/
theorem levelOf_high_iff (s : Nat) : levelOf s = "high" ↔ 6 ≤ s := by
  unfold levelOf
  split_ifs with h1 h2 h3
  · exact iff_of_true rfl h1
  · exact iff_of_false (by decide) h1
  · exact iff_of_false (by decide) h1
  · exact iff_of_false (by decide) h1

theorem levelOf_medium_iff (s : Nat) : levelOf s = "medium" ↔ 4 ≤ s ∧ s < 6 := by
  unfold levelOf
  split_ifs with h1 h2 h3
  · exact iff_of_false (by decide) (by omega)
  · exact iff_of_true rfl ⟨h2, by omega⟩
  · exact iff_of_false (by decide) (by omega)
  · exact iff_of_false (by decide) (by omega)

theorem levelOf_low_iff (s : Nat) : levelOf s = "low" ↔ 2 ≤ s ∧ s < 4 := by
  unfold levelOf
  split_ifs with h1 h2 h3
  · exact iff_of_false (by decide) (by omega)
  · exact iff_of_false (by decide) (by omega)
  · exact iff_of_true rfl ⟨h3, by omega⟩
  · exact iff_of_false (by decide) (by omega)

theorem levelOf_none_iff (s : Nat) : levelOf s = "none" ↔ s < 2 := by
  unfold levelOf
  split_ifs with h1 h2 h3
  · exact iff_of_false (by decide) (by omega)
  · exact iff_of_false (by decide) (by omega)
  · exact iff_of_false (by decide) (by omega)
  · exact iff_of_true rfl (by omega)

/-- Concrete result used to refute the claim's reading of the accuracy
point: non-zero coordinates, a hostname, and an accuracy radius of
exactly `0`. -/
def zeroRadiusResult : LookupResult :=
  { ip := "203.0.113.7", latitude := some 1, longitude := some 1,
    hostname := some "r1.example", accuracy_radius := some 0 }

/-- Claim C1 (counterexample): on `zeroRadiusResult` the source computes
score `2 + 1 = 3` (the truthiness test drops the accuracy point), hence
"low", while the claim's rubric ("+1 if accuracy radius is present and
< 50") computes `2 + 1 + 1 = 4`, hence "medium". -/
theorem calculate_confidence_claim_counterexample :
    calculate_confidence zeroRadiusResult = "low" ∧
    levelOf (claimScore zeroRadiusResult) = "medium" ∧
    calculate_confidence zeroRadiusResult ≠ levelOf (claimScore zeroRadiusResult) := by
  refine ⟨rfl, rfl, ?_⟩; decide

/-- Claim C1 (amended): the confidence equals the threshold map of the score,
the score is the stated sum of fixed weights — with the accuracy point
requiring the radius to be present, *non-zero* and `< 50` (truthiness) —
and the level is "high" iff score ≥ 6, "medium" iff 4 ≤ score < 6, "low"
iff 2 ≤ score < 4, "none" iff score < 2, so exactly one of the four levels
is always produced, as a pure function of the other fields. -/
theorem calculate_confidence_spec (r : LookupResult) :
    calculate_confidence r = levelOf (score r) ∧
    score r =
      (if truthyRat r.latitude && truthyRat r.longitude then 2 else 0) +
      (if truthyStr r.city then 2 else 0) +
      (if truthyStr r.hostname then 1 else 0) +
      (if truthyStr r.dns_hints then 2 else 0) +
      (if truthyNat r.accuracy_radius && decide (r.accuracy_radius.getD 0 < 50)
       then 1 else 0) ∧
    (calculate_confidence r = "high" ↔ 6 ≤ score r) ∧
    (calculate_confidence r = "medium" ↔ 4 ≤ score r ∧ score r < 6) ∧
    (calculate_confidence r = "low" ↔ 2 ≤ score r ∧ score r < 4) ∧
    (calculate_confidence r = "none" ↔ score r < 2) ∧
    (calculate_confidence r = "high" ∨ calculate_confidence r = "medium" ∨
     calculate_confidence r = "low" ∨ calculate_confidence r = "none") := by
  refine ⟨rfl, rfl, levelOf_high_iff _, levelOf_medium_iff _, levelOf_low_iff _,
    levelOf_none_iff _, ?_⟩
  by_cases h6 : 6 ≤ score r
  · exact Or.inl ((levelOf_high_iff _).2 h6)
  · by_cases h4 : 4 ≤ score r
    · exact Or.inr (Or.inl ((levelOf_medium_iff _).2 ⟨h4, by omega⟩))
    · by_cases h2 : 2 ≤ score r
      · exact Or.inr (Or.inr (Or.inl ((levelOf_low_iff _).2 ⟨h2, by omega⟩)))
      · exact Or.inr (Or.inr (Or.inr ((levelOf_none_iff _).2 (by omega))))

/-- Claim C9: the +1 accuracy point is awarded iff the radius is present,
non-zero, and strictly below 50 km; in particular a radius of exactly `0`
earns nothing — the score (and hence the confidence) is the same as if the
radius were absent. -/
theorem accTerm_iff (r : LookupResult) :
    (accTerm r = 1 ↔ ∃ a, r.accuracy_radius = some a ∧ a ≠ 0 ∧ a < 50) ∧
    (r.accuracy_radius = some 0 →
      accTerm r = 0 ∧
      score r = score { r with accuracy_radius := none } ∧
      calculate_confidence r = calculate_confidence { r with accuracy_radius := none }) := by
  constructor
  · cases h : r.accuracy_radius with
    | none => simp [accTerm, truthyNat, h]
    | some a =>
      unfold accTerm truthyNat
      simp only [h, Option.getD_some]
      by_cases h0 : a = 0
      · subst h0; simp
      · by_cases h50 : a < 50
        · simp [h0, h50]
        · simp [h0, h50]
  · intro h
    have ha : accTerm r = 0 := by
      unfold accTerm truthyNat; rw [h]; rfl
    have hs : score r = score { r with accuracy_radius := none } := by
      show coordTerm r + cityTerm r + hostTerm r + hintTerm r + accTerm r =
        coordTerm r + cityTerm r + hostTerm r + hintTerm r +
          accTerm { r with accuracy_radius := none }
      have : accTerm { r with accuracy_radius := none } = 0 := rfl
      omega
    exact ⟨ha, hs, by unfold calculate_confidence; rw [hs]⟩

/-- Concrete result for the witness of `accTerm_iff`: found in the
database with city "Taipei" but an accuracy radius of exactly `0`. -/
def cityZeroRadiusResult : LookupResult :=
  { ip := "198.51.100.1", city := some "Taipei", accuracy_radius := some 0 }

/-- Witness for `accTerm_iff`: on `cityZeroRadiusResult` the score is the
same as with no radius at all. -/
theorem accTerm_iff_witness :
    accTerm cityZeroRadiusResult = 0 ∧
    score cityZeroRadiusResult = score { cityZeroRadiusResult with accuracy_radius := none } ∧
    calculate_confidence cityZeroRadiusResult =
      calculate_confidence { cityZeroRadiusResult with accuracy_radius := none } :=
  (accTerm_iff cityZeroRadiusResult).2 rfl

/-- Monotonicity of the threshold map: a larger score never produces a
lower-ranked level. -/
theorem confRank_levelOf_mono {s t : Nat} (h : s ≤ t) :
    confRank (levelOf s) ≤ confRank (levelOf t) := by
  unfold levelOf
  split_ifs <;> first | decide | (exfalso; omega)

/-- Claim C3: populating any one previously-absent signal — city name,
coordinate pair, hostname, DNS hint, or sub-50 km accuracy radius — never
lowers the confidence level ("absent" is what the scorer treats as absent:
Python-falsy). -/
theorem confidence_monotone (r : LookupResult) :
    (truthyStr r.city = false → ∀ c : Option String,
      confRank (calculate_confidence r) ≤
        confRank (calculate_confidence { r with city := c })) ∧
    ((truthyRat r.latitude && truthyRat r.longitude) = false → ∀ a b : Option Rat,
      confRank (calculate_confidence r) ≤
        confRank (calculate_confidence { r with latitude := a, longitude := b })) ∧
    (truthyStr r.hostname = false → ∀ h : Option String,
      confRank (calculate_confidence r) ≤
        confRank (calculate_confidence { r with hostname := h })) ∧
    (truthyStr r.dns_hints = false → ∀ d : Option String,
      confRank (calculate_confidence r) ≤
        confRank (calculate_confidence { r with dns_hints := d })) ∧
    (accTerm r = 0 → ∀ a : Option Nat,
      confRank (calculate_confidence r) ≤
        confRank (calculate_confidence { r with accuracy_radius := a })) := by
  refine ⟨?_, ?_, ?_, ?_, ?_⟩
  · intro hab c
    apply confRank_levelOf_mono
    have h0 : cityTerm r = 0 := by unfold cityTerm; rw [hab]; rfl
    show coordTerm r + cityTerm r + hostTerm r + hintTerm r + accTerm r ≤
      coordTerm r + cityTerm { r with city := c } + hostTerm r + hintTerm r + accTerm r
    omega
  · intro hab a b
    apply confRank_levelOf_mono
    have h0 : coordTerm r = 0 := by unfold coordTerm; rw [hab]; rfl
    show coordTerm r + cityTerm r + hostTerm r + hintTerm r + accTerm r ≤
      coordTerm { r with latitude := a, longitude := b } + cityTerm r + hostTerm r +
        hintTerm r + accTerm r
    omega
  · intro hab h
    apply confRank_levelOf_mono
    have h0 : hostTerm r = 0 := by unfold hostTerm; rw [hab]; rfl
    show coordTerm r + cityTerm r + hostTerm r + hintTerm r + accTerm r ≤
      coordTerm r + cityTerm r + hostTerm { r with hostname := h } + hintTerm r + accTerm r
    omega
  · intro hab d
    apply confRank_levelOf_mono
    have h0 : hintTerm r = 0 := by unfold hintTerm; rw [hab]; rfl
    show coordTerm r + cityTerm r + hostTerm r + hintTerm r + accTerm r ≤
      coordTerm r + cityTerm r + hostTerm r + hintTerm { r with dns_hints := d } + accTerm r
    omega
  · intro hab a
    apply confRank_levelOf_mono
    show coordTerm r + cityTerm r + hostTerm r + hintTerm r + accTerm r ≤
      coordTerm r + cityTerm r + hostTerm r + hintTerm r +
        accTerm { r with accuracy_radius := a }
    omega

/-- Concrete empty result for the witness of `confidence_monotone`. -/
def emptyResult : LookupResult := { ip := "192.0.2.1" }

/-- Witness for `confidence_monotone`: all five signal additions at the
empty result. -/
theorem confidence_monotone_witness :
    (confRank (calculate_confidence emptyResult) ≤
      confRank (calculate_confidence { emptyResult with city := some "Taipei" })) ∧
    (confRank (calculate_confidence emptyResult) ≤
      confRank (calculate_confidence
        { emptyResult with latitude := some 25, longitude := some 121 })) ∧
    (confRank (calculate_confidence emptyResult) ≤
      confRank (calculate_confidence { emptyResult with hostname := some "h1.tw" })) ∧
    (confRank (calculate_confidence emptyResult) ≤
      confRank (calculate_confidence { emptyResult with dns_hints := some "Taipei" })) ∧
    (confRank (calculate_confidence emptyResult) ≤
      confRank (calculate_confidence { emptyResult with accuracy_radius := some 10 })) :=
  ⟨(confidence_monotone emptyResult).1 rfl (some "Taipei"),
   (confidence_monotone emptyResult).2.1 rfl (some 25) (some 121),
   (confidence_monotone emptyResult).2.2.1 rfl (some "h1.tw"),
   (confidence_monotone emptyResult).2.2.2.1 rfl (some "Taipei"),
   (confidence_monotone emptyResult).2.2.2.2 rfl (some 10)⟩

/-- The Taiwan city code table (source lines 32–58), in its Python dict
insertion order; iteration over `self.taiwan_codes.items()` visits the
entries in exactly this order, which is the tie-break for overlapping
codes. -/
def taiwan_codes : List (String × String) :=
  [("tpe", "Taipei"), ("tpq", "Taipei"), ("ntc", "New Taipei"), ("ntpc", "New Taipei"),
   ("tyn", "Taoyuan"), ("ty", "Taoyuan"), ("tcn", "Taichung"), ("tc", "Taichung"),
   ("txg", "Taichung"), ("tnn", "Tainan"), ("tn", "Tainan"), ("khh", "Kaohsiung"),
   ("kh", "Kaohsiung"), ("hsc", "Hsinchu"), ("hc", "Hsinchu"), ("hch", "Hsinchu"),
   ("hl", "Hualien"), ("il", "Yilan"), ("tt", "Taitung"), ("nt", "Nantou"),
   ("cy", "Chiayi"), ("ml", "Miaoli"), ("cl", "Changhua"), ("yl", "Yunlin"),
   ("pt", "Pingtung")]

/-- Word characters of the regex `\b` boundary (ASCII `\w`): letters,
digits, underscore. -/
def wordChar (c : Char) : Bool := c.isAlphanum || c == '_'

/-- The delimiter class `[-_.]` of the hostname pattern. -/
def delimChar (c : Char) : Bool := c == '-' || c == '_' || c == '.'

/-- Whether the pattern `\b code \b | [-_.] code [-_.] | code \d` (source
line 129) matches at a split `pre ++ code ++ post` of the hostname.  Every
code is alphabetic, so a `\b` next to the code holds exactly when the
neighbouring character is missing or is a non-word character. -/
def boundedAt (pre post : List Char) : Bool :=
  (pre.getLast?.all (fun c => !wordChar c) && post.head?.all (fun c => !wordChar c)) ||
  (pre.getLast?.any delimChar && post.head?.any delimChar) ||
  post.head?.any Char.isDigit

/-- Search of the code's pattern over the lowercased hostname (`re.search`): some
split of the hostname makes the pattern match. -/
def boundedMatch (code hl : List Char) : Bool :=
  (List.range (hl.length + 1)).any fun i =>
    code.isPrefixOf (hl.drop i) && boundedAt (hl.take i) (hl.drop (i + code.length))

/-- Embedding of `extract_location_from_hostname` (source lines 114–133): lowercase the
hostname, scan the code table in order, return the city of the first code
whose pattern matches, `none` if no code matches. -/
def extract_location_from_hostname (hostname : String) : Option String :=
  (taiwan_codes.find? fun p => boundedMatch p.1.toList (hostname.toList.map Char.toLower)).map
    Prod.snd

/-- Claim C2: the extractor returns a hint iff some code of the table
occurs in the lowercased hostname as a bounded token, and any returned
city is the mapped city of such a matching code; in particular a code
occurring only as an unbounded substring of an unrelated word never
produces a hint. -/
theorem extract_hint_iff (hostname : String) :
    ((extract_location_from_hostname hostname).isSome = true ↔
      ∃ p ∈ taiwan_codes, boundedMatch p.1.toList (hostname.toList.map Char.toLower) = true) ∧
    (∀ city, extract_location_from_hostname hostname = some city →
      ∃ p ∈ taiwan_codes, boundedMatch p.1.toList (hostname.toList.map Char.toLower) = true ∧
        p.2 = city) := by
  constructor
  · unfold extract_location_from_hostname
    rw [Option.isSome_map']
    exact List.find?_isSome
  · intro city h
    unfold extract_location_from_hostname at h
    rcases Option.map_eq_some'.1 h with ⟨p, hp, hp2⟩
    have hm := @List.find?_some _ _ _ _ hp
    exact ⟨p, List.mem_of_find?_eq_some hp, hm, hp2⟩

/-- Witness for `extract_hint_iff`: the spec's own example hostname. -/
theorem extract_hint_iff_witness :
    extract_location_from_hostname "TPE-gw1.example.net" = some "Taipei" ∧
    ∃ p ∈ taiwan_codes,
      boundedMatch p.1.toList ("TPE-gw1.example.net".toList.map Char.toLower) = true ∧
      p.2 = "Taipei" :=
  ⟨by decide, (extract_hint_iff "TPE-gw1.example.net").2 "Taipei" (by decide)⟩

/-- First-match characterization of `List.find?`. -/
theorem find?_eq_of_first {α : Type} (p : α → Bool) (l : List α) (i : Nat)
    (hi : i < l.length) (hm : p (l.get ⟨i, hi⟩) = true)
    (he : ∀ j (hj : j < i), p (l.get ⟨j, Nat.lt_trans hj hi⟩) = false) :
    l.find? p = some (l.get ⟨i, hi⟩) := by
  induction l generalizing i with
  | nil => exact absurd hi (Nat.not_lt_zero i)
  | cons x xs ih =>
    cases i with
    | zero => exact List.find?_cons_of_pos _ hm
    | succ n =>
      have hx : p x = false := he 0 (Nat.succ_pos n)
      rw [List.find?_cons_of_neg _ (by simp [hx])]
      exact ih n (Nat.lt_of_succ_lt_succ hi) hm
        (fun j hj => he (j + 1) (Nat.succ_lt_succ hj))

/-- Claim C4: when several codes match, the first matching entry in the
table's fixed enumeration order determines the hint, and the extractor is
deterministic — equal hostnames always yield equal hints. -/
theorem extract_first_match :
    (∀ (host : String) (i : Nat) (hi : i < taiwan_codes.length),
      boundedMatch (taiwan_codes.get ⟨i, hi⟩).1.toList (host.toList.map Char.toLower) = true →
      (∀ j (hj : j < i),
        boundedMatch (taiwan_codes.get ⟨j, Nat.lt_trans hj hi⟩).1.toList
          (host.toList.map Char.toLower) = false) →
      extract_location_from_hostname host = some (taiwan_codes.get ⟨i, hi⟩).2) ∧
    (∀ h1 h2 : String, h1 = h2 →
      extract_location_from_hostname h1 = extract_location_from_hostname h2) := by
  constructor
  · intro host i hi hm he
    unfold extract_location_from_hostname
    rw [find?_eq_of_first _ taiwan_codes i hi hm he]
    rfl
  · intro h1 h2 h
    rw [h]

/-- Witness for `extract_first_match`: in `"ntc1.x"` both `"ntc"` (table
position 2) and `"tc"` (table position 7) match as bounded tokens; the
earlier entry wins, giving "New Taipei" rather than "Taichung". -/
theorem extract_first_match_witness :
    extract_location_from_hostname "ntc1.x" = some "New Taipei" ∧
    boundedMatch "tc".toList ("ntc1.x".toList.map Char.toLower) = true :=
  ⟨extract_first_match.1 "ntc1.x" 2 (by decide) (by decide) (by decide), by decide⟩

/-- Record returned by a successful MaxMind city lookup, reduced to the
fields `lookup_ip` reads; `subdivision` is the most-specific subdivision
name when the response carries a non-empty hierarchy, `none` otherwise. -/
structure GeoRecord where
  country : Option String := none
  city : Option String := none
  latitude : Option Rat := none
  longitude : Option Rat := none
  accuracy_radius : Option Nat := none
  postal_code : Option String := none
  subdivision : Option String := none

/-- Outcome of the database query for one IP: a successful record, the
`AddressNotFoundError` branch, or any other failure carrying `str(e)`. -/
inductive DbOutcome where
  | found (g : GeoRecord)
  | notFound
  | failure (msg : String)

/-- Embedding of `lookup_ip` (source lines 60–112), with the two external collaborators
passed as functions: `db ip` is the MaxMind query outcome and `dns ip` the
reverse-DNS result (`none` models the caught `herror`/`gaierror`).  The
database branch fills the geo fields or `error`; the DNS branch then fills
`hostname`/`dns_hints` independently; finally the confidence is computed
over the assembled record. -/
def lookup_ip (db : String → DbOutcome) (dns : String → Option String)
    (ip : String) : LookupResult :=
  let base : LookupResult := { ip := ip }
  let r1 : LookupResult :=
    match db ip with
    | .found g =>
        { base with
          country := g.country
          city := g.city
          latitude := g.latitude
          longitude := g.longitude
          accuracy_radius := g.accuracy_radius
          postal_code := g.postal_code
          subdivision := g.subdivision }
    | .notFound => { base with error := some "IP not found in database" }
    | .failure m => { base with error := some m }
  let r2 : LookupResult :=
    match dns ip with
    | some h =>
        { r1 with
          hostname := some h
          dns_hints := extract_location_from_hostname h }
    | none => r1
  { r2 with confidence := some (calculate_confidence r2) }

/-- Claim C5: when the database reports the address as not found, the
result carries exactly the error string "IP not found in database", every
geo field stays absent, reverse DNS is still attempted (hostname and hint
are populated from it), and the confidence is computed from those
DNS-derived signals alone. -/
theorem lookup_ip_not_found (db : String → DbOutcome) (dns : String → Option String)
    (ip : String) (h : db ip = DbOutcome.notFound) :
    lookup_ip db dns ip =
      { ip := ip, hostname := dns ip,
        dns_hints := (dns ip).bind extract_location_from_hostname,
        confidence := some (calculate_confidence
          { ip := ip, hostname := dns ip,
            dns_hints := (dns ip).bind extract_location_from_hostname,
            error := some "IP not found in database" }),
        error := some "IP not found in database" } := by
  unfold lookup_ip
  rw [h]
  cases hd : dns ip <;> rfl

/-- Witness for `lookup_ip_not_found`: the spec's end-to-end scenario — an
IP absent from the database whose reverse DNS resolves to
"tpe-core1.example.tw" still gets hostname, hint "Taipei", and confidence
"low" (1 + 2 = 3 points). -/
theorem lookup_ip_not_found_witness :
    lookup_ip (fun _ => DbOutcome.notFound) (fun _ => some "tpe-core1.example.tw")
        "1.2.3.4" =
      { ip := "1.2.3.4", hostname := some "tpe-core1.example.tw",
        dns_hints := some "Taipei", confidence := some "low",
        error := some "IP not found in database" } := by
  rw [lookup_ip_not_found (fun _ => DbOutcome.notFound)
    (fun _ => some "tpe-core1.example.tw") "1.2.3.4" rfl]
  decide

/-- Embedding of `process_ip_list` (source lines 173–204): iterate the IPs in input
order, appending each `lookup_ip` result; progress printing and the CSV
side output do not affect the collected list. -/
def process_ip_list (db : String → DbOutcome) (dns : String → Option String)
    (ips : List String) : List LookupResult :=
  ips.foldl (fun results ip => results ++ [lookup_ip db dns ip]) []

/-- Appending one mapped element at a time is `List.map`. -/
theorem foldl_append_eq_map {α β : Type} (f : α → β) (l : List α) (acc : List β) :
    l.foldl (fun rs a => rs ++ [f a]) acc = acc ++ l.map f := by
  induction l generalizing acc with
  | nil => simp
  | cons x xs ih => simp [List.foldl_cons, ih]

/-- The city key used by the Taiwan city distribution:
`r.get('city') or 'Unknown'` (source line 256). -/
def cityKey (r : LookupResult) : String :=
  match r.city with
  | some s => if s = "" then "Unknown" else s
  | none => "Unknown"

/-- One `cities[city] = cities.get(city, 0) + 1` step on the insertion-
ordered association list modelling the Python dict. -/
def bump : List (String × Nat) → String → List (String × Nat)
  | [], c => [(c, 1)]
  | (k, n) :: rest, c => if k = c then (k, n + 1) :: rest else (k, n) :: bump rest c

/-- The Taiwan city distribution (source lines 252–257): results whose
country equals "Taiwan", keyed by `cityKey`, counted in first-seen order. -/
def cityCounts (results : List LookupResult) : List (String × Nat) :=
  (results.filter fun r => decide (r.country = some "Taiwan")).foldl
    (fun m r => bump m (cityKey r)) []

/-- The count statistics computed by `print_summary` (source lines
226–236 and 252–257) before anything is printed. -/
structure BatchSummary where
  total : Nat
  found : Nat
  with_dns : Nat
  with_hints : Nat
  high : Nat
  medium : Nat
  low : Nat
  level_none : Nat
  cities : List (String × Nat)

/-- The counts assembled by `print_summary` before its print statements:
`total`/`found`/`with_dns`/`with_hints` and the per-level counts (source
lines 226–236), plus the Taiwan city distribution (lines 252–257). -/
def summary_counts (results : List LookupResult) : BatchSummary :=
  { total := results.length
    found := results.countP (fun r => truthyStr r.city)
    with_dns := results.countP (fun r => truthyStr r.hostname)
    with_hints := results.countP (fun r => truthyStr r.dns_hints)
    high := results.countP (fun r => decide (r.confidence = some "high"))
    medium := results.countP (fun r => decide (r.confidence = some "medium"))
    low := results.countP (fun r => decide (r.confidence = some "low"))
    level_none := results.countP (fun r => decide (r.confidence = some "none"))
    cities := cityCounts results }

/-- The percentages printed at source lines 242–249: each count divided by
the total, times 100.  Python computes them in binary floating point; only
their computability matters to the claims, so the exact rational value is
used. -/
def pctList (s : BatchSummary) : List Rat :=
  [(s.found : Rat) / (s.total : Rat) * 100,
   (s.with_dns : Rat) / (s.total : Rat) * 100,
   (s.with_hints : Rat) / (s.total : Rat) * 100,
   (s.high : Rat) / (s.total : Rat) * 100,
   (s.medium : Rat) / (s.total : Rat) * 100,
   (s.low : Rat) / (s.total : Rat) * 100,
   (s.level_none : Rat) / (s.total : Rat) * 100]

/-- Embedding of `print_summary` (source lines 224–261): the counts are
computed first (see `summary_counts`), then every percentage print of
lines 242–249 divides by `total` — on an empty batch the first of them
(`found/total*100`, line 242) raises an uncaught `ZeroDivisionError` and
the call aborts, modeled by `none`; otherwise the call returns the
summary it computed and printed. -/
def print_summary (results : List LookupResult) : Option (BatchSummary × List Rat) :=
  let s := summary_counts results
  if s.total = 0 then none else some (s, pctList s)

/-- Claim C6 (counterexample): with a successfully opened database and no
per-IP failure at all, the batch over the empty sequence does not
complete with a summary: `process_ip_list` reaches `print_summary` (source
line 202) with zero results, and the percentage division `found/total*100`
(line 242) raises `ZeroDivisionError` — modeled by `print_summary`
returning `none` — even though no setup failure occurred. -/
theorem process_ip_list_empty_counterexample :
    process_ip_list (fun _ => DbOutcome.notFound) (fun _ => none) [] = [] ∧
    (summary_counts (process_ip_list (fun _ => DbOutcome.notFound)
      (fun _ => none) [])).total = 0 ∧
    print_summary (process_ip_list (fun _ => DbOutcome.notFound)
      (fun _ => none) []) = none :=
  ⟨rfl, rfl, rfl⟩

/-- Claim C6 (amended): with an opened database, a batch over any
*nonempty* IP sequence completes with exactly one result per input IP, in
input order (per-IP failures are recorded inside the result values and
never abort the batch), and the summary — counts and percentages — is
produced over all of them; the empty sequence instead dies in the
summary's percentage division. -/
theorem process_ip_list_complete (db : String → DbOutcome)
    (dns : String → Option String) (ips : List String) (hne : ips ≠ []) :
    (process_ip_list db dns ips).length = ips.length ∧
    (∀ i : Nat, (process_ip_list db dns ips)[i]? = ips[i]?.map (lookup_ip db dns)) ∧
    print_summary (process_ip_list db dns ips) =
      some (summary_counts (process_ip_list db dns ips),
        pctList (summary_counts (process_ip_list db dns ips))) ∧
    (summary_counts (process_ip_list db dns ips)).total = ips.length := by
  have hm : process_ip_list db dns ips = ips.map (lookup_ip db dns) := by
    unfold process_ip_list
    rw [foldl_append_eq_map]
    rfl
  have htot : (summary_counts (process_ip_list db dns ips)).total = ips.length := by
    show (process_ip_list db dns ips).length = ips.length
    rw [hm, List.length_map]
  refine ⟨?_, ?_, ?_, htot⟩
  · rw [hm, List.length_map]
  · intro i
    rw [hm, List.getElem?_map]
  · show (if (summary_counts (process_ip_list db dns ips)).total = 0 then none
      else some (summary_counts (process_ip_list db dns ips),
        pctList (summary_counts (process_ip_list db dns ips)))) =
      some (summary_counts (process_ip_list db dns ips),
        pctList (summary_counts (process_ip_list db dns ips)))
    rw [if_neg]
    rw [htot]
    intro h0
    exact hne (List.length_eq_zero.1 h0)

/-- Witness for `process_ip_list_complete`: the one-element batch
["1.2.3.4"] against a database with no records and no DNS. -/
theorem process_ip_list_complete_witness :
    (process_ip_list (fun _ => DbOutcome.notFound) (fun _ => none) ["1.2.3.4"]).length =
      (["1.2.3.4"] : List String).length ∧
    (∀ i : Nat,
      (process_ip_list (fun _ => DbOutcome.notFound) (fun _ => none) ["1.2.3.4"])[i]? =
        (["1.2.3.4"] : List String)[i]?.map
          (lookup_ip (fun _ => DbOutcome.notFound) (fun _ => none))) ∧
    print_summary (process_ip_list (fun _ => DbOutcome.notFound)
        (fun _ => none) ["1.2.3.4"]) =
      some (summary_counts (process_ip_list (fun _ => DbOutcome.notFound)
          (fun _ => none) ["1.2.3.4"]),
        pctList (summary_counts (process_ip_list (fun _ => DbOutcome.notFound)
          (fun _ => none) ["1.2.3.4"]))) ∧
    (summary_counts (process_ip_list (fun _ => DbOutcome.notFound)
      (fun _ => none) ["1.2.3.4"])).total = (["1.2.3.4"] : List String).length :=
  process_ip_list_complete (fun _ => DbOutcome.notFound) (fun _ => none)
    ["1.2.3.4"] (List.cons_ne_nil _ _)

/-- The threshold chain only ever produces one of the four level names. -/
theorem levelOf_cases (s : Nat) :
    levelOf s = "high" ∨ levelOf s = "medium" ∨ levelOf s = "low" ∨
      levelOf s = "none" := by
  unfold levelOf
  split_ifs <;> simp

/-- Every enriched result carries one of the four confidence levels. -/
theorem lookup_ip_confidence_cases (db : String → DbOutcome)
    (dns : String → Option String) (ip : String) :
    ∃ s, (lookup_ip db dns ip).confidence = some s ∧
      (s = "high" ∨ s = "medium" ∨ s = "low" ∨ s = "none") :=
  ⟨_, rfl, levelOf_cases _⟩

/-- Counting along four mutually exclusive, exhaustive predicates recovers
the length. -/
theorem countP_four_partition {α : Type} (l : List α) (p1 p2 p3 p4 : α → Bool)
    (h : ∀ x ∈ l, (p1 x).toNat + (p2 x).toNat + (p3 x).toNat + (p4 x).toNat = 1) :
    l.countP p1 + l.countP p2 + l.countP p3 + l.countP p4 = l.length := by
  induction l with
  | nil => simp
  | cons x xs ih =>
    have hx := h x (List.mem_cons_self x xs)
    have hxs := ih fun y hy => h y (List.mem_cons_of_mem x hy)
    simp only [List.countP_cons, List.length_cons]
    cases hp1 : p1 x <;> cases hp2 : p2 x <;> cases hp3 : p3 x <;> cases hp4 : p4 x <;>
      simp [hp1, hp2, hp3, hp4] at hx ⊢ <;> omega

/-- Total of the per-city counters. -/
def sumCounts (m : List (String × Nat)) : Nat := (m.map Prod.snd).sum

theorem sumCounts_bump (m : List (String × Nat)) (c : String) :
    sumCounts (bump m c) = sumCounts m + 1 := by
  induction m with
  | nil => rfl
  | cons p rest ih =>
    obtain ⟨k, n⟩ := p
    unfold bump
    split_ifs with hk
    · simp [sumCounts]
      omega
    · simp only [sumCounts, List.map_cons, List.sum_cons] at ih ⊢
      omega

theorem sumCounts_foldl_bump (l : List LookupResult) (m : List (String × Nat)) :
    sumCounts (l.foldl (fun acc r => bump acc (cityKey r)) m) =
      sumCounts m + l.length := by
  induction l generalizing m with
  | nil => simp
  | cons r rest ih =>
    rw [List.foldl_cons, ih, sumCounts_bump, List.length_cons]
    omega

/-- Claim C7: for any batch-produced result sequence the summary counts are
internally consistent — the found-count is at most the total, the four
confidence-level counts sum to exactly the total, and the Taiwan per-city
counts sum to at most the total. -/
theorem print_summary_consistent (db : String → DbOutcome)
    (dns : String → Option String) (ips : List String) :
    (summary_counts (process_ip_list db dns ips)).found ≤
      (summary_counts (process_ip_list db dns ips)).total ∧
    (summary_counts (process_ip_list db dns ips)).high +
        (summary_counts (process_ip_list db dns ips)).medium +
        (summary_counts (process_ip_list db dns ips)).low +
        (summary_counts (process_ip_list db dns ips)).level_none =
      (summary_counts (process_ip_list db dns ips)).total ∧
    sumCounts (summary_counts (process_ip_list db dns ips)).cities ≤
      (summary_counts (process_ip_list db dns ips)).total := by
  refine ⟨List.countP_le_length _, ?_, ?_⟩
  · apply countP_four_partition
    intro x hx
    unfold process_ip_list at hx
    rw [foldl_append_eq_map, List.nil_append] at hx
    rcases List.mem_map.1 hx with ⟨ip, _, rfl⟩
    rcases lookup_ip_confidence_cases db dns ip with ⟨s, hs, hcase⟩
    rw [hs]
    rcases hcase with rfl | rfl | rfl | rfl <;> decide
  · show sumCounts (cityCounts (process_ip_list db dns ips)) ≤
      (process_ip_list db dns ips).length
    unfold cityCounts
    rw [sumCounts_foldl_bump]
    have := List.length_filter_le (fun r => decide (r.country = some "Taiwan"))
      (process_ip_list db dns ips)
    simpa [sumCounts] using this

/-- Count stored for a city key in the association list (0 when missing),
the observable content of the Python dict. -/
def getCount (m : List (String × Nat)) (c : String) : Nat :=
  ((m.find? fun p => p.1 == c).map Prod.snd).getD 0

theorem getCount_nil (c : String) : getCount [] c = 0 := rfl

theorem getCount_bump_same (m : List (String × Nat)) (c : String) :
    getCount (bump m c) c = getCount m c + 1 := by
  induction m with
  | nil => simp [bump, getCount]
  | cons p rest ih =>
    obtain ⟨k, n⟩ := p
    by_cases hk : k = c
    · subst hk
      simp [bump, getCount, List.find?_cons]
    · simp [bump, getCount, List.find?_cons, hk] at ih ⊢
      exact ih

theorem getCount_bump_other (m : List (String × Nat)) (c c' : String)
    (h : c' ≠ c) : getCount (bump m c) c' = getCount m c' := by
  induction m with
  | nil => simp [bump, getCount, List.find?_cons, Ne.symm h]
  | cons p rest ih =>
    obtain ⟨k, n⟩ := p
    by_cases hk : k = c
    · subst hk
      simp [bump, getCount, List.find?_cons, Ne.symm h]
    · by_cases hk' : k = c'
      · subst hk'
        simp [bump, getCount, List.find?_cons, hk]
      · simp [bump, getCount, List.find?_cons, hk, hk'] at ih ⊢
        exact ih

theorem getCount_foldl_bump (l : List LookupResult) (m : List (String × Nat))
    (c : String) :
    getCount (l.foldl (fun acc r => bump acc (cityKey r)) m) c =
      getCount m c + l.countP (fun r => decide (cityKey r = c)) := by
  induction l generalizing m with
  | nil => simp
  | cons r rest ih =>
    rw [List.foldl_cons, ih, List.countP_cons]
    by_cases hr : cityKey r = c
    · rw [hr, getCount_bump_same]
      simp [hr]
      omega
    · rw [getCount_bump_other _ _ _ (fun he => hr he.symm)]
      simp [hr]

/-- Stable insertion modelling Python's stable `sorted(..., reverse=True)`:
a new element goes after every element whose count is at least its own, so
first-seen entries keep their place among ties. -/
def insertDesc (x : String × Nat) : List (String × Nat) → List (String × Nat)
  | [] => [x]
  | y :: ys => if x.2 ≤ y.2 then y :: insertDesc x ys else x :: y :: ys

/-- The descending stable sort applied for display (source line 260). -/
def sortDesc (m : List (String × Nat)) : List (String × Nat) :=
  m.foldl (fun acc x => insertDesc x acc) []

theorem mem_insertDesc {z x : String × Nat} {l : List (String × Nat)}
    (h : z ∈ insertDesc x l) : z = x ∨ z ∈ l := by
  induction l with
  | nil => simpa [insertDesc] using h
  | cons y ys ih =>
    unfold insertDesc at h
    split_ifs at h with hx
    · rcases List.mem_cons.1 h with rfl | h'
      · exact Or.inr (List.mem_cons_self _ _)
      · rcases ih h' with rfl | h''
        · exact Or.inl rfl
        · exact Or.inr (List.mem_cons_of_mem _ h'')
    · rcases List.mem_cons.1 h with rfl | h'
      · exact Or.inl rfl
      · exact Or.inr h'

theorem pairwise_insertDesc (x : String × Nat) (l : List (String × Nat))
    (hl : l.Pairwise (fun a b => b.2 ≤ a.2)) :
    (insertDesc x l).Pairwise (fun a b => b.2 ≤ a.2) := by
  induction l with
  | nil => simp [insertDesc]
  | cons y ys ih =>
    rcases List.pairwise_cons.1 hl with ⟨hy, hys⟩
    unfold insertDesc
    split_ifs with hx
    · refine List.pairwise_cons.2 ⟨?_, ih hys⟩
      intro z hz
      rcases mem_insertDesc hz with rfl | hz'
      · exact hx
      · exact hy z hz'
    · refine List.pairwise_cons.2 ⟨?_, hl⟩
      intro z hz
      rcases List.mem_cons.1 hz with rfl | hz'
      · omega
      · exact le_trans (hy z hz') (by omega)

theorem insertDesc_perm (x : String × Nat) (l : List (String × Nat)) :
    (insertDesc x l).Perm (x :: l) := by
  induction l with
  | nil => exact List.Perm.refl _
  | cons y ys ih =>
    unfold insertDesc
    split_ifs with hx
    · exact (ih.cons y).trans (List.Perm.swap x y ys)
    · exact List.Perm.refl _

theorem foldl_insertDesc_perm (l acc : List (String × Nat)) :
    (l.foldl (fun a x => insertDesc x a) acc).Perm (acc ++ l) := by
  induction l generalizing acc with
  | nil => simp
  | cons x xs ih =>
    rw [List.foldl_cons]
    refine (ih (insertDesc x acc)).trans ?_
    refine (((insertDesc_perm x acc).append_right xs).trans ?_)
    exact List.perm_middle.symm

theorem foldl_insertDesc_pairwise (l acc : List (String × Nat))
    (h : acc.Pairwise (fun a b => b.2 ≤ a.2)) :
    (l.foldl (fun a x => insertDesc x a) acc).Pairwise (fun a b => b.2 ≤ a.2) := by
  induction l generalizing acc with
  | nil => exact h
  | cons x xs ih => exact ih _ (pairwise_insertDesc x acc h)

theorem insertDesc_cons {x y : String × Nat} {ys : List (String × Nat)} :
    insertDesc x (y :: ys) =
      if x.2 ≤ y.2 then y :: insertDesc x ys else x :: y :: ys := rfl

theorem insertDesc_cons_le {x y : String × Nat} {ys : List (String × Nat)}
    (h : x.2 ≤ y.2) : insertDesc x (y :: ys) = y :: insertDesc x ys := by
  rw [insertDesc_cons, if_pos h]

theorem insertDesc_cons_gt {x y : String × Nat} {ys : List (String × Nat)}
    (h : ¬ x.2 ≤ y.2) : insertDesc x (y :: ys) = x :: y :: ys := by
  rw [insertDesc_cons, if_neg h]

theorem filter_insertDesc (x : String × Nat) (l : List (String × Nat)) (k : Nat)
    (hl : l.Pairwise (fun a b => b.2 ≤ a.2)) :
    (insertDesc x l).filter (fun p => p.2 == k) =
      l.filter (fun p => p.2 == k) ++ (if x.2 == k then [x] else []) := by
  induction l with
  | nil =>
    show List.filter (fun p => p.2 == k) [x] = [] ++ _
    rw [List.nil_append, List.filter_cons, List.filter_nil]
  | cons y ys ih =>
    rcases List.pairwise_cons.1 hl with ⟨hy, hys⟩
    by_cases hx : x.2 ≤ y.2
    · rw [insertDesc_cons_le hx, List.filter_cons, List.filter_cons, ih hys]
      by_cases hyk : (y.2 == k) = true
      · rw [if_pos hyk, if_pos hyk, List.cons_append]
      · rw [if_neg hyk, if_neg hyk]
    · rw [insertDesc_cons_gt hx, List.filter_cons]
      by_cases hxk : (x.2 == k) = true
      · have hk : x.2 = k := by simpa using hxk
        have hnil : List.filter (fun p => p.2 == k) (y :: ys) = [] := by
          rw [List.filter_eq_nil_iff]
          intro a ha
          have ha2 : a.2 ≤ y.2 := by
            rcases List.mem_cons.1 ha with rfl | ha'
            · exact le_refl _
            · exact hy a ha'
          simp only [beq_iff_eq]
          omega
        rw [if_pos hxk, hnil, if_pos hxk]
        rfl
      · rw [if_neg hxk, if_neg hxk, List.append_nil]

theorem filter_foldl_insertDesc (l acc : List (String × Nat)) (k : Nat)
    (h : acc.Pairwise (fun a b => b.2 ≤ a.2)) :
    (l.foldl (fun a x => insertDesc x a) acc).filter (fun p => p.2 == k) =
      acc.filter (fun p => p.2 == k) ++ l.filter (fun p => p.2 == k) := by
  induction l generalizing acc with
  | nil => simp
  | cons x xs ih =>
    rw [List.foldl_cons, ih _ (pairwise_insertDesc x acc h),
      filter_insertDesc x acc k h, List.filter_cons]
    by_cases hxk : (x.2 == k) = true
    · rw [if_pos hxk, if_pos hxk]
      simp
    · rw [if_neg hxk, if_neg hxk]
      simp

/-- Claim C8: the city distribution counts exactly the results whose
country is "Taiwan", keyed by city name with sentinel "Unknown" for an
absent city, and the displayed list is a permutation of those counters
sorted by descending count, with ties kept in first-seen order (the
entries of any one count value appear exactly in their original order). -/
theorem city_distribution_spec (results : List LookupResult) :
    (∀ c : String, getCount (cityCounts results) c =
      ((results.filter fun r => decide (r.country = some "Taiwan")).filter
        (fun r => decide (cityKey r = c))).length) ∧
    (sortDesc (cityCounts results)).Pairwise (fun a b => b.2 ≤ a.2) ∧
    (sortDesc (cityCounts results)).Perm (cityCounts results) ∧
    (∀ k : Nat, (sortDesc (cityCounts results)).filter (fun p => p.2 == k) =
      (cityCounts results).filter (fun p => p.2 == k)) := by
  refine ⟨?_, ?_, ?_, ?_⟩
  · intro c
    unfold cityCounts
    rw [getCount_foldl_bump, getCount_nil, Nat.zero_add,
      List.countP_eq_length_filter]
  · exact foldl_insertDesc_pairwise _ _ (List.Pairwise.nil)
  · exact (foldl_insertDesc_perm _ _).trans (by simp)
  · intro k
    have := filter_foldl_insertDesc (cityCounts results) [] k List.Pairwise.nil
    simpa using this

/-- Python `str.strip()` on a character list: drop whitespace from both ends. -/
def strip (l : List Char) : List Char :=
  ((l.dropWhile Char.isWhitespace).reverse.dropWhile Char.isWhitespace).reverse

/-- Consume one literal `\.` of the pattern. -/
def expectDot : List Char → Option (List Char)
  | c :: rest => if c = '.' then some rest else none
  | [] => none

/-- Consume `\s+`: at least one whitespace character, greedy (the maximal
whitespace run). -/
def expectWs (s : List Char) : Option (List Char) :=
  if s.takeWhile Char.isWhitespace = [] then none
  else some (s.dropWhile Char.isWhitespace)

/-- Consume `^\s*\d+\.`: optional whitespace, a non-empty digit run (the
row index), then the literal dot.  A greedy `\d+` followed by `\.` can
only match the full maximal digit run followed by a dot. -/
def expectIndex (s : List Char) : Option (List Char) :=
  if (s.dropWhile Char.isWhitespace).takeWhile Char.isDigit = [] then none
  else expectDot ((s.dropWhile Char.isWhitespace).dropWhile Char.isDigit)

/-- Consume `\d{1,3}` when followed by a non-digit: the greedy group can
succeed exactly when the maximal digit run has length 1 to 3, because any
shorter match leaves a digit where the pattern requires `\.` or `\s`. -/
def parseOctet (s : List Char) : Option (List Char × List Char) :=
  if s.takeWhile Char.isDigit = [] ∨ 3 < (s.takeWhile Char.isDigit).length then none
  else some (s.takeWhile Char.isDigit, s.dropWhile Char.isDigit)

/-- Build the optional hostname from the captured group 2 (source lines
296–297): strip it; an empty strip is Python-falsy and becomes `None`. -/
def hostOf (l : List Char) : Option String :=
  if strip l = [] then none else some (String.mk (strip l))

/-- One line against the row pattern
`^\s*\d+\.\s+(\d{1,3}\.\d{1,3}\.\d{1,3}\.\d{1,3})\s+(.*)` (source line
290), yielding `(group 1, stripped group 2 or None)` as in source lines
296–298.  Group 2 (`(.*)`) is the run after the whitespace following the
IP, up to a newline, since `.` does not match a newline. -/
def parse_line (s : List Char) : Option (String × Option String) :=
  (expectIndex s).bind fun s1 =>
  (expectWs s1).bind fun s3 =>
  (parseOctet s3).bind fun p1 =>
  (expectDot p1.2).bind fun t2 =>
  (parseOctet t2).bind fun p2 =>
  (expectDot p2.2).bind fun t4 =>
  (parseOctet t4).bind fun p3 =>
  (expectDot p3.2).bind fun t6 =>
  (parseOctet t6).bind fun p4 =>
  (expectWs p4.2).bind fun s8 =>
  some (String.mk (p1.1 ++ '.' :: (p2.1 ++ '.' :: (p3.1 ++ '.' :: p4.1))),
        hostOf (s8.takeWhile fun c => !(c == '\n')))

/-- Embedding of `parse_router_file` (source lines 281–300) over the file's lines:
append the parsed pair of every matching line, ignore every other line. -/
def parse_router_file (lines : List (List Char)) : List (String × Option String) :=
  lines.foldl
    (fun routers line =>
      match parse_line line with
      | some p => routers ++ [p]
      | none => routers)
    []

/-- Modelled from the claim's words: a line of the shape optional
whitespace, index digits, period, whitespace, four 1-to-3-digit
dot-separated groups (no range check), whitespace, arbitrary trailing
text.  Used for the refinement comparison with `parse_line`. -/
def lineShape (s : List Char) : Prop :=
  ∃ w0 idx w1 g1 g2 g3 g4 w2 rest : List Char,
    s = w0 ++ (idx ++ '.' :: (w1 ++ (g1 ++ '.' ::
      (g2 ++ '.' :: (g3 ++ '.' :: (g4 ++ (w2 ++ rest))))))) ∧
    (∀ c ∈ w0, c.isWhitespace = true) ∧
    idx ≠ [] ∧ (∀ c ∈ idx, c.isDigit = true) ∧
    w1 ≠ [] ∧ (∀ c ∈ w1, c.isWhitespace = true) ∧
    (g1 ≠ [] ∧ g1.length ≤ 3 ∧ ∀ c ∈ g1, c.isDigit = true) ∧
    (g2 ≠ [] ∧ g2.length ≤ 3 ∧ ∀ c ∈ g2, c.isDigit = true) ∧
    (g3 ≠ [] ∧ g3.length ≤ 3 ∧ ∀ c ∈ g3, c.isDigit = true) ∧
    (g4 ≠ [] ∧ g4.length ≤ 3 ∧ ∀ c ∈ g4, c.isDigit = true) ∧
    w2 ≠ [] ∧ (∀ c ∈ w2, c.isWhitespace = true)

theorem isDigit_not_isWhitespace {c : Char} (h : c.isDigit = true) :
    c.isWhitespace = false := by
  rcases Bool.eq_false_or_eq_true c.isWhitespace with hw | hw
  · exfalso
    have hd : ((c = ' ' ∨ c = '\t') ∨ c = '\r') ∨ c = '\n' := by
      simpa [Char.isWhitespace] using hw
    rcases hd with ((rfl | rfl) | rfl) | rfl <;> exact absurd h (by decide)
  · exact hw

theorem isWhitespace_not_isDigit {c : Char} (h : c.isWhitespace = true) :
    c.isDigit = false := by
  rcases Bool.eq_false_or_eq_true c.isDigit with hd | hd
  · exfalso
    rw [isDigit_not_isWhitespace hd] at h
    exact Bool.false_ne_true h
  · exact hd

/-- Splitting `takeWhile`/`dropWhile` at a run boundary: if every element
of `a` satisfies `p` and the head of `b` (when any) does not, the run is
exactly `a`. -/
theorem takeWhile_dropWhile_split (p : Char → Bool) (a b : List Char)
    (ha : ∀ c ∈ a, p c = true) (hb : ∀ c, b.head? = some c → p c = false) :
    (a ++ b).takeWhile p = a ∧ (a ++ b).dropWhile p = b := by
  induction a with
  | nil =>
    simp only [List.nil_append]
    cases b with
    | nil => exact ⟨rfl, rfl⟩
    | cons c cs =>
      have hc := hb c rfl
      exact ⟨by simp [List.takeWhile_cons, hc], by simp [List.dropWhile_cons, hc]⟩
  | cons x xs ih =>
    have hx : p x = true := ha x (List.mem_cons_self x xs)
    obtain ⟨h1, h2⟩ := ih fun c hc => ha c (List.mem_cons_of_mem x hc)
    exact ⟨by simp [List.takeWhile_cons, hx, h1], by simp [List.dropWhile_cons, hx, h2]⟩

theorem dropWhile_append_all (p : Char → Bool) (a b : List Char)
    (ha : ∀ c ∈ a, p c = true) : (a ++ b).dropWhile p = b.dropWhile p := by
  induction a with
  | nil => rfl
  | cons x xs ih =>
    have hx : p x = true := ha x (List.mem_cons_self x xs)
    simp only [List.cons_append, List.dropWhile_cons, hx, if_true]
    exact ih fun c hc => ha c (List.mem_cons_of_mem x hc)

theorem takeWhile_all (p : Char → Bool) (l : List Char)
    (h : ∀ c ∈ l, p c = true) : l.takeWhile p = l := by
  induction l with
  | nil => rfl
  | cons x xs ih =>
    have hx : p x = true := h x (List.mem_cons_self x xs)
    simp only [List.takeWhile_cons, hx, if_true]
    rw [ih fun c hc => h c (List.mem_cons_of_mem x hc)]

theorem dropWhile_idem (p : Char → Bool) (l : List Char) :
    (l.dropWhile p).dropWhile p = l.dropWhile p := by
  induction l with
  | nil => rfl
  | cons x xs ih =>
    by_cases hx : p x = true
    · simp only [List.dropWhile_cons, hx, if_true]
      exact ih
    · rw [Bool.not_eq_true] at hx
      simp [List.dropWhile_cons, hx]

theorem expectDot_cons (u : List Char) : expectDot ('.' :: u) = some u := rfl

theorem expectDot_eq {s u : List Char} (h : expectDot s = some u) : s = '.' :: u := by
  cases s with
  | nil => exact absurd h (by simp [expectDot])
  | cons c cs =>
    rw [show expectDot (c :: cs) = if c = '.' then some cs else none from rfl] at h
    by_cases hc : c = '.'
    · rw [if_pos hc] at h
      rw [hc, Option.some.inj h]
    · rw [if_neg hc] at h
      cases h

theorem expectWs_append (w t : List Char) (hw : ∀ c ∈ w, c.isWhitespace = true)
    (hne : w ≠ []) (ht : ∀ c, t.head? = some c → c.isWhitespace = false) :
    expectWs (w ++ t) = some t := by
  obtain ⟨h1, h2⟩ := takeWhile_dropWhile_split Char.isWhitespace w t hw ht
  unfold expectWs
  rw [h1, h2, if_neg hne]

theorem expectWs_head {s : List Char} {c : Char} (hc : s.head? = some c)
    (hw : c.isWhitespace = true) :
    expectWs s = some (s.dropWhile Char.isWhitespace) := by
  cases s with
  | nil => cases hc
  | cons a as =>
    obtain rfl : a = c := Option.some.inj hc
    have ht : (a :: as).takeWhile Char.isWhitespace =
        a :: as.takeWhile Char.isWhitespace := by
      rw [List.takeWhile_cons, if_pos hw]
    unfold expectWs
    rw [ht, if_neg (List.cons_ne_nil a _)]

theorem expectWs_eq {s t : List Char} (h : expectWs s = some t) :
    ∃ w, s = w ++ t ∧ (∀ c ∈ w, c.isWhitespace = true) ∧ w ≠ [] ∧
      s.dropWhile Char.isWhitespace = t := by
  unfold expectWs at h
  by_cases he : s.takeWhile Char.isWhitespace = []
  · rw [if_pos he] at h
    cases h
  · rw [if_neg he] at h
    obtain rfl := Option.some.inj h
    exact ⟨s.takeWhile Char.isWhitespace,
      (List.takeWhile_append_dropWhile Char.isWhitespace s).symm,
      fun c hc => List.mem_takeWhile_imp hc, he, rfl⟩

theorem expectIndex_append (w0 idx u : List Char)
    (hw : ∀ c ∈ w0, c.isWhitespace = true)
    (hidx : ∀ c ∈ idx, c.isDigit = true) (hne : idx ≠ []) :
    expectIndex (w0 ++ (idx ++ '.' :: u)) = some u := by
  obtain ⟨i, is, rfl⟩ : ∃ i is, idx = i :: is := by
    cases idx with
    | nil => exact absurd rfl hne
    | cons i is => exact ⟨i, is, rfl⟩
  have hihead : ∀ c, ((i :: is) ++ '.' :: u).head? = some c →
      c.isWhitespace = false := by
    intro c hc
    obtain rfl : i = c := Option.some.inj hc
    exact isDigit_not_isWhitespace (hidx i (List.mem_cons_self i is))
  obtain ⟨_, h2⟩ :=
    takeWhile_dropWhile_split Char.isWhitespace w0 ((i :: is) ++ '.' :: u) hw hihead
  have hdot : ∀ c, ('.' :: u).head? = some c → c.isDigit = false := by
    intro c hc
    obtain rfl : '.' = c := Option.some.inj hc
    decide
  obtain ⟨h3, h4⟩ :=
    takeWhile_dropWhile_split Char.isDigit (i :: is) ('.' :: u) hidx hdot
  unfold expectIndex
  rw [h2, h3, h4, if_neg (List.cons_ne_nil i is), expectDot_cons]

theorem expectIndex_eq {s u : List Char} (h : expectIndex s = some u) :
    ∃ w0 idx, s = w0 ++ (idx ++ '.' :: u) ∧
      (∀ c ∈ w0, c.isWhitespace = true) ∧
      (∀ c ∈ idx, c.isDigit = true) ∧ idx ≠ [] := by
  unfold expectIndex at h
  by_cases he : (s.dropWhile Char.isWhitespace).takeWhile Char.isDigit = []
  · rw [if_pos he] at h
    cases h
  · rw [if_neg he] at h
    have hd := expectDot_eq h
    refine ⟨s.takeWhile Char.isWhitespace,
      (s.dropWhile Char.isWhitespace).takeWhile Char.isDigit, ?_,
      fun c hc => List.mem_takeWhile_imp hc,
      fun c hc => List.mem_takeWhile_imp hc, he⟩
    calc s = s.takeWhile Char.isWhitespace ++ s.dropWhile Char.isWhitespace :=
          (List.takeWhile_append_dropWhile Char.isWhitespace s).symm
    _ = s.takeWhile Char.isWhitespace ++
          ((s.dropWhile Char.isWhitespace).takeWhile Char.isDigit ++
            (s.dropWhile Char.isWhitespace).dropWhile Char.isDigit) := by
        rw [List.takeWhile_append_dropWhile Char.isDigit
          (s.dropWhile Char.isWhitespace)]
    _ = _ := by rw [hd]

theorem parseOctet_append (g t : List Char) (hg : ∀ c ∈ g, c.isDigit = true)
    (hne : g ≠ []) (hlen : g.length ≤ 3)
    (ht : ∀ c, t.head? = some c → c.isDigit = false) :
    parseOctet (g ++ t) = some (g, t) := by
  obtain ⟨h1, h2⟩ := takeWhile_dropWhile_split Char.isDigit g t hg ht
  unfold parseOctet
  rw [h1, h2]
  rw [if_neg ?hcond]
  case hcond =>
    rintro (hc | hc)
    · exact hne hc
    · omega

theorem parseOctet_eq {s : List Char} {p : List Char × List Char}
    (h : parseOctet s = some p) :
    s = p.1 ++ p.2 ∧ (∀ c ∈ p.1, c.isDigit = true) ∧ p.1 ≠ [] ∧ p.1.length ≤ 3 := by
  unfold parseOctet at h
  by_cases hc : s.takeWhile Char.isDigit = [] ∨ 3 < (s.takeWhile Char.isDigit).length
  · rw [if_pos hc] at h
    cases h
  · rw [if_neg hc] at h
    have hpair := Option.some.inj h
    have hg : s.takeWhile Char.isDigit = p.1 := congrArg Prod.fst hpair
    have ht2 : s.dropWhile Char.isDigit = p.2 := congrArg Prod.snd hpair
    rw [not_or] at hc
    refine ⟨?_, ?_, ?_, ?_⟩
    · rw [← hg, ← ht2, List.takeWhile_append_dropWhile]
    · intro c hcg
      rw [← hg] at hcg
      exact List.mem_takeWhile_imp hcg
    · rw [← hg]
      exact hc.1
    · rw [← hg]
      omega

theorem head_digit_not_ws {g t : List Char} (hg : ∀ c ∈ g, c.isDigit = true)
    (hne : g ≠ []) : ∀ c, (g ++ t).head? = some c → c.isWhitespace = false := by
  intro c hc
  cases g with
  | nil => exact absurd rfl hne
  | cons x xs =>
    obtain rfl : x = c := Option.some.inj hc
    exact isDigit_not_isWhitespace (hg x (List.mem_cons_self x xs))

theorem head_dot_not_digit {u : List Char} :
    ∀ c, ('.' :: u).head? = some c → c.isDigit = false := by
  intro c hc
  obtain rfl : '.' = c := Option.some.inj hc
  decide

theorem head_ws_not_digit {w t : List Char} (hw : ∀ c ∈ w, c.isWhitespace = true)
    (hne : w ≠ []) : ∀ c, (w ++ t).head? = some c → c.isDigit = false := by
  intro c hc
  cases w with
  | nil => exact absurd rfl hne
  | cons x xs =>
    obtain rfl : x = c := Option.some.inj hc
    exact isWhitespace_not_isDigit (hw x (List.mem_cons_self x xs))

/-- Evaluation of `parse_line` on a decomposed matching line: the regex
engine's greedy runs coincide with the decomposition's components, group 1
is the dotted join of the four octet groups, and group 2 is everything
after the whitespace run that follows the IP, up to a newline. -/
theorem parse_line_append (w0 idx w1 g1 g2 g3 g4 w2 rest : List Char)
    (hw0 : ∀ c ∈ w0, c.isWhitespace = true)
    (hidxne : idx ≠ []) (hidx : ∀ c ∈ idx, c.isDigit = true)
    (hw1ne : w1 ≠ []) (hw1 : ∀ c ∈ w1, c.isWhitespace = true)
    (hg1ne : g1 ≠ []) (hg1len : g1.length ≤ 3) (hg1 : ∀ c ∈ g1, c.isDigit = true)
    (hg2ne : g2 ≠ []) (hg2len : g2.length ≤ 3) (hg2 : ∀ c ∈ g2, c.isDigit = true)
    (hg3ne : g3 ≠ []) (hg3len : g3.length ≤ 3) (hg3 : ∀ c ∈ g3, c.isDigit = true)
    (hg4ne : g4 ≠ []) (hg4len : g4.length ≤ 3) (hg4 : ∀ c ∈ g4, c.isDigit = true)
    (hw2ne : w2 ≠ []) (hw2 : ∀ c ∈ w2, c.isWhitespace = true) :
    parse_line (w0 ++ (idx ++ '.' :: (w1 ++ (g1 ++ '.' ::
        (g2 ++ '.' :: (g3 ++ '.' :: (g4 ++ (w2 ++ rest)))))))) =
      some (String.mk (g1 ++ '.' :: (g2 ++ '.' :: (g3 ++ '.' :: g4))),
        hostOf (((w2 ++ rest).dropWhile Char.isWhitespace).takeWhile
          fun c => !(c == '\n'))) := by
  have e1 := expectIndex_append w0 idx
    (w1 ++ (g1 ++ '.' :: (g2 ++ '.' :: (g3 ++ '.' :: (g4 ++ (w2 ++ rest))))))
    hw0 hidx hidxne
  have e2 := expectWs_append w1
    (g1 ++ '.' :: (g2 ++ '.' :: (g3 ++ '.' :: (g4 ++ (w2 ++ rest)))))
    hw1 hw1ne (head_digit_not_ws hg1 hg1ne)
  have e3 := parseOctet_append g1
    ('.' :: (g2 ++ '.' :: (g3 ++ '.' :: (g4 ++ (w2 ++ rest)))))
    hg1 hg1ne hg1len head_dot_not_digit
  have e4 := expectDot_cons (g2 ++ '.' :: (g3 ++ '.' :: (g4 ++ (w2 ++ rest))))
  have e5 := parseOctet_append g2 ('.' :: (g3 ++ '.' :: (g4 ++ (w2 ++ rest))))
    hg2 hg2ne hg2len head_dot_not_digit
  have e6 := expectDot_cons (g3 ++ '.' :: (g4 ++ (w2 ++ rest)))
  have e7 := parseOctet_append g3 ('.' :: (g4 ++ (w2 ++ rest)))
    hg3 hg3ne hg3len head_dot_not_digit
  have e8 := expectDot_cons (g4 ++ (w2 ++ rest))
  have e9 := parseOctet_append g4 (w2 ++ rest)
    hg4 hg4ne hg4len (head_ws_not_digit hw2 hw2ne)
  have e10 : expectWs (w2 ++ rest) =
      some ((w2 ++ rest).dropWhile Char.isWhitespace) := by
    cases w2 with
    | nil => exact absurd rfl hw2ne
    | cons x xs =>
      exact expectWs_head rfl (hw2 x (List.mem_cons_self x xs))
  simp only [parse_line, e1, e2, e3, e4, e5, e6, e7, e8, e9, e10, Option.some_bind]

/-- Any accepted line decomposes into the claimed shape. -/
theorem parse_line_isSome_shape {s : List Char}
    (h : (parse_line s).isSome = true) : lineShape s := by
  unfold parse_line at h
  cases he1 : expectIndex s with
  | none => rw [he1] at h; exact absurd h (by simp)
  | some s1 =>
  rw [he1] at h
  simp only [Option.some_bind] at h
  cases he2 : expectWs s1 with
  | none => rw [he2] at h; exact absurd h (by simp)
  | some s3 =>
  rw [he2] at h
  simp only [Option.some_bind] at h
  cases he3 : parseOctet s3 with
  | none => rw [he3] at h; exact absurd h (by simp)
  | some p1 =>
  rw [he3] at h
  simp only [Option.some_bind] at h
  cases he4 : expectDot p1.2 with
  | none => rw [he4] at h; exact absurd h (by simp)
  | some t2 =>
  rw [he4] at h
  simp only [Option.some_bind] at h
  cases he5 : parseOctet t2 with
  | none => rw [he5] at h; exact absurd h (by simp)
  | some p2 =>
  rw [he5] at h
  simp only [Option.some_bind] at h
  cases he6 : expectDot p2.2 with
  | none => rw [he6] at h; exact absurd h (by simp)
  | some t4 =>
  rw [he6] at h
  simp only [Option.some_bind] at h
  cases he7 : parseOctet t4 with
  | none => rw [he7] at h; exact absurd h (by simp)
  | some p3 =>
  rw [he7] at h
  simp only [Option.some_bind] at h
  cases he8 : expectDot p3.2 with
  | none => rw [he8] at h; exact absurd h (by simp)
  | some t6 =>
  rw [he8] at h
  simp only [Option.some_bind] at h
  cases he9 : parseOctet t6 with
  | none => rw [he9] at h; exact absurd h (by simp)
  | some p4 =>
  rw [he9] at h
  simp only [Option.some_bind] at h
  cases he10 : expectWs p4.2 with
  | none => rw [he10] at h; exact absurd h (by simp)
  | some s8 =>
  obtain ⟨w0, idx, hs, hw0, hidx, hidxne⟩ := expectIndex_eq he1
  obtain ⟨w1, hs1, hw1, hw1ne, _⟩ := expectWs_eq he2
  obtain ⟨hs3, hg1, hg1ne, hg1len⟩ := parseOctet_eq he3
  have ht1 := expectDot_eq he4
  obtain ⟨hs4, hg2, hg2ne, hg2len⟩ := parseOctet_eq he5
  have ht3 := expectDot_eq he6
  obtain ⟨hs5, hg3, hg3ne, hg3len⟩ := parseOctet_eq he7
  have ht5 := expectDot_eq he8
  obtain ⟨hs6, hg4, hg4ne, hg4len⟩ := parseOctet_eq he9
  obtain ⟨w2, hs7, hw2, hw2ne, _⟩ := expectWs_eq he10
  refine ⟨w0, idx, w1, p1.1, p2.1, p3.1, p4.1, w2, s8, ?_, hw0, hidxne, hidx,
    hw1ne, hw1, ⟨hg1ne, hg1len, hg1⟩, ⟨hg2ne, hg2len, hg2⟩, ⟨hg3ne, hg3len, hg3⟩,
    ⟨hg4ne, hg4len, hg4⟩, hw2ne, hw2⟩
  rw [hs, hs1, hs3, ht1, hs4, ht3, hs5, ht5, hs6, hs7]

/-- The collecting loop of `parse_router_file` is `List.filterMap`. -/
theorem foldl_parse_eq_filterMap (lines : List (List Char))
    (acc : List (String × Option String)) :
    lines.foldl
      (fun routers line =>
        match parse_line line with
        | some p => routers ++ [p]
        | none => routers) acc = acc ++ lines.filterMap parse_line := by
  induction lines generalizing acc with
  | nil => simp
  | cons l ls ih =>
    rw [List.foldl_cons]
    cases hp : parse_line l with
    | some p => simp [hp, ih, List.filterMap_cons]
    | none => simp [hp, ih, List.filterMap_cons]

/-- Claim C10: `parse_router_file` returns, in file order, one
`(ip, hostname)` pair per line matching the row pattern — optional
whitespace, an index, a period, whitespace, four 1-to-3-digit
dot-separated groups, whitespace, trailing text — with no range check on
the groups (so "999.999.999.999" is accepted as an IP); the hostname is
`none` exactly when the trailing text strips to empty, and every
non-matching line is ignored. -/
theorem parse_router_file_spec :
    (∀ lines : List (List Char),
      parse_router_file lines = lines.filterMap parse_line) ∧
    (∀ s : List Char, (parse_line s).isSome = true ↔ lineShape s) ∧
    (∀ w0 idx w1 g1 g2 g3 g4 w2 rest : List Char,
      (∀ c ∈ w0, c.isWhitespace = true) →
      idx ≠ [] → (∀ c ∈ idx, c.isDigit = true) →
      w1 ≠ [] → (∀ c ∈ w1, c.isWhitespace = true) →
      g1 ≠ [] → g1.length ≤ 3 → (∀ c ∈ g1, c.isDigit = true) →
      g2 ≠ [] → g2.length ≤ 3 → (∀ c ∈ g2, c.isDigit = true) →
      g3 ≠ [] → g3.length ≤ 3 → (∀ c ∈ g3, c.isDigit = true) →
      g4 ≠ [] → g4.length ≤ 3 → (∀ c ∈ g4, c.isDigit = true) →
      w2 ≠ [] → (∀ c ∈ w2, c.isWhitespace = true) →
      (∀ c ∈ rest, ¬ c = '\n') →
      parse_line (w0 ++ (idx ++ '.' :: (w1 ++ (g1 ++ '.' ::
          (g2 ++ '.' :: (g3 ++ '.' :: (g4 ++ (w2 ++ rest)))))))) =
        some (String.mk (g1 ++ '.' :: (g2 ++ '.' :: (g3 ++ '.' :: g4))),
          if strip rest = [] then none else some (String.mk (strip rest)))) ∧
    parse_line " 12. 999.999.999.999 r9.tw\n".toList =
      some ("999.999.999.999", some "r9.tw") ∧
    parse_line "1. 10.0.0.1\n".toList = some ("10.0.0.1", none) ∧
    parse_line "1. 1234.5.6.7 x\n".toList = none := by
  refine ⟨?_, ?_, ?_, by decide, by decide, by decide⟩
  · intro lines
    unfold parse_router_file
    rw [foldl_parse_eq_filterMap, List.nil_append]
  · intro s
    constructor
    · exact parse_line_isSome_shape
    · rintro ⟨w0, idx, w1, g1, g2, g3, g4, w2, rest, hs, hw0, hidxne, hidx, hw1ne,
        hw1, ⟨hg1ne, hg1len, hg1⟩, ⟨hg2ne, hg2len, hg2⟩, ⟨hg3ne, hg3len, hg3⟩,
        ⟨hg4ne, hg4len, hg4⟩, hw2ne, hw2⟩
      rw [hs, parse_line_append w0 idx w1 g1 g2 g3 g4 w2 rest hw0 hidxne hidx hw1ne
        hw1 hg1ne hg1len hg1 hg2ne hg2len hg2 hg3ne hg3len hg3 hg4ne hg4len hg4
        hw2ne hw2]
      rfl
  · intro w0 idx w1 g1 g2 g3 g4 w2 rest hw0 hidxne hidx hw1ne hw1 hg1ne hg1len hg1
      hg2ne hg2len hg2 hg3ne hg3len hg3 hg4ne hg4len hg4 hw2ne hw2 hrest
    rw [parse_line_append w0 idx w1 g1 g2 g3 g4 w2 rest hw0 hidxne hidx hw1ne hw1
      hg1ne hg1len hg1 hg2ne hg2len hg2 hg3ne hg3len hg3 hg4ne hg4len hg4 hw2ne hw2]
    have h1 : (w2 ++ rest).dropWhile Char.isWhitespace =
        rest.dropWhile Char.isWhitespace :=
      dropWhile_append_all Char.isWhitespace w2 rest hw2
    have h2 : (rest.dropWhile Char.isWhitespace).takeWhile (fun c => !(c == '\n')) =
        rest.dropWhile Char.isWhitespace := by
      apply takeWhile_all
      intro c hc
      have hcr : c ∈ rest := (List.dropWhile_sublist _).subset hc
      simpa using hrest c hcr
    have h3 : strip (rest.dropWhile Char.isWhitespace) = strip rest := by
      unfold strip
      rw [dropWhile_idem]
    rw [h1, h2]
    unfold hostOf
    rw [h3]

/-- Witness for `parse_router_file_spec`: the decomposition-level clause at
the concrete line " 7. 203.0.113.5 gw1.tw". -/
theorem parse_router_file_spec_witness :
    parse_line (" ".toList ++ ("7".toList ++ '.' :: (" ".toList ++ ("203".toList ++
        '.' :: ("0".toList ++ '.' :: ("113".toList ++ '.' :: ("5".toList ++
          (" ".toList ++ "gw1.tw".toList)))))))) =
      some (String.mk ("203".toList ++ '.' :: ("0".toList ++ '.' ::
          ("113".toList ++ '.' :: "5".toList))),
        if strip "gw1.tw".toList = [] then none
        else some (String.mk (strip "gw1.tw".toList))) :=
  parse_router_file_spec.2.2.1 " ".toList "7".toList " ".toList "203".toList
    "0".toList "113".toList "5".toList " ".toList "gw1.tw".toList
    (by decide) (by decide) (by decide) (by decide) (by decide) (by decide)
    (by decide) (by decide) (by decide) (by decide) (by decide) (by decide)
    (by decide) (by decide) (by decide) (by decide) (by decide) (by decide)
    (by decide) (by decide)

end Geo
